import Mathlib

/-!
Shallow embedding of the block-construction pipeline of
`packages/data-prep/src/app/jobs/tasks.py` (`run_data_processing`), together
with proofs of the documented properties of the Normalizer, Chat Assembler,
Segmenter, Turn Merger and Block Validator.

Timestamps are modelled as integer seconds, the injected tokenizer as a
function `String → Nat`, and the raw Telegram-export records as structures
carrying exactly the fields the worker reads.
-/

namespace Resonare

/-- Sender role of a message.  The normaliser only produces `user` and
`assistant`; `system` is reserved for the configured system prompt. -/
inductive Role where
  | system
  | user
  | assistant
deriving DecidableEq, Repr

/-- One normalised utterance (`app.models.Message`): a role, a text content
and an optional timestamp in seconds (`none` only for the synthetic system
message). -/
structure Message where
  role : Role
  content : String
  timestamp : Option Int
deriving DecidableEq, Repr

/-- Modelled from the spec: the pydantic models file (`app/models.py`) is not
among the sources.  The spec data model states that a Message content is
non-empty text, so pydantic construction fails with a ValidationError exactly
when the content is empty. -/
def mkMessage (r : Role) (c : String) (t : Option Int) : Option Message :=
  if c = "" then none else some ⟨r, c, t⟩

/-- One training example (`app.models.Block`).  Modelled from the spec:
`app/models.py` is absent and the spec specifies no construction-time
constraint beyond holding the merged turns, so construction always succeeds. -/
structure Block where
  messages : List Message
deriving DecidableEq, Repr

/-- One two-party conversation (`app.models.Chat`): the fields `tasks.py`
reads and writes.  `raw_blocks` is filled by the Segmenter and overwritten by
the Merger; `valid_blocks` is filled by the Validator. -/
structure Chat where
  contact_name : String
  type : String
  messages : List Message
  raw_blocks : List (List Message) := []
  valid_blocks : List Block := []
deriving DecidableEq, Repr

/-- Python `str.strip()`: drop leading and trailing whitespace. -/
def strTrim (s : String) : String :=
  ⟨((s.data.dropWhile Char.isWhitespace).reverse.dropWhile Char.isWhitespace).reverse⟩

/-- Python `raw_text.replace("\n", " ")` for the one-character pattern. -/
def nlToSpace (s : String) : String :=
  ⟨s.data.map (fun c => if c = '\n' then ' ' else c)⟩

/-- Token count of a message list:
`sum(len(tokenizer.encode(m.content)) for m in block)`. -/
def tokSum (tok : String → Nat) (l : List Message) : Nat :=
  (l.map (fun m => tok m.content)).sum

/-- One raw exported message record, with the fields the worker reads: the
sender (`from`), the text of each entry of `text_entities`, `sticker_emoji`,
and the parsed `date` (`none` models a malformed ISO-8601 string, whose parse
error is caught and the record skipped). -/
structure RawMessage where
  sender : String
  text_entities : List String
  sticker_emoji : String
  date : Option Int
deriving Repr

/-- Message Normalizer (`tasks.py` lines 223-258): skip records without a
sender or without tokenizable content, rebuild the text from the entities plus
the sticker emoji, strip it and collapse internal newlines to spaces, parse
the timestamp, apply the optional date limit and assign the role by comparing
the sender with the target name. -/
def normalizeMsg (targetName : String) (dateLimit : Option Int) (msg : RawMessage) :
    Option Message :=
  if msg.sender = "" ∨ (msg.text_entities = [] ∧ msg.sticker_emoji = "") then none
  else
    let content := nlToSpace (strTrim (String.join msg.text_entities ++ msg.sticker_emoji))
    match msg.date with
    | none => none
    | some t =>
      match dateLimit with
      | some dl =>
        if t < dl then none
        else mkMessage (if msg.sender = targetName then .assistant else .user) content (some t)
      | none =>
        mkMessage (if msg.sender = targetName then .assistant else .user) content (some t)

/-- One raw exported conversation record. -/
structure RawChat where
  name : String
  type : String
  messages : List RawMessage
deriving Repr

/-- Stable insertion of a message into a timestamp-sorted list. -/
def insertByTs (m : Message) : List Message → List Message
  | [] => [m]
  | x :: xs =>
    if x.timestamp.getD 0 < m.timestamp.getD 0 then x :: insertByTs m xs
    else m :: x :: xs

/-- Model of Python's stable `msgs.sort(key=lambda m: m.timestamp)`. -/
def sortByTs : List Message → List Message
  | [] => []
  | m :: rest => insertByTs m (sortByTs rest)

/-- Chat Assembler (`tasks.py` lines 209-279): keep only named `personal_chat`
conversations with at least one surviving normalised message, sorted by
timestamp.  (`Chat` construction never fails: the models file specifies no
further constraint.) -/
def buildChat (targetName : String) (dateLimit : Option Int) (rc : RawChat) :
    Option Chat :=
  if rc.name = "" then none
  else if rc.type ≠ "personal_chat" then none
  else
    let msgs := rc.messages.filterMap (normalizeMsg targetName dateLimit)
    if msgs.isEmpty then none
    else some { contact_name := rc.name, type := rc.type, messages := sortByTs msgs }

/-- Threshold sanity check (`tasks.py` lines 295-300): an inverted or empty
window `min_tokens ≥ max_tokens` is replaced by the default pair `(100, 3000)`;
the Bool records that the configuration warning was logged. -/
def sanitizeThresholds (minT maxT : Nat) : Nat × Nat × Bool :=
  if minT ≥ maxT then (100, 3000, true) else (minT, maxT, false)

/-- Timestamp of a message as the Segmenter reads it (pipeline messages always
carry one at that point). -/
def ts (m : Message) : Int := m.timestamp.getD 0

/-- Accumulated result of segmenting one chat: the kept raw blocks in order,
plus the counts of discarded short and long blocks. -/
structure SegAcc where
  kept : List (List Message)
  shorts : Nat
  longs : Nat
deriving DecidableEq, Repr

/-- Closing-block policy (`tasks.py` lines 329-336 and 344-351): a non-empty
closed block is kept iff its running token count lies in `[minT, maxT]`,
otherwise it is counted as short or long. -/
def closeBlock (minT maxT : Nat) (cur : List Message) (curTok : Nat) (acc : SegAcc) :
    SegAcc :=
  if cur.isEmpty then acc
  else if minT ≤ curTok ∧ curTok ≤ maxT then { acc with kept := acc.kept ++ [cur] }
  else if curTok < minT then { acc with shorts := acc.shorts + 1 }
  else { acc with longs := acc.longs + 1 }

/-- Greedy left-to-right pass of the Segmenter (`tasks.py` lines 307-351),
threading the current block, its running token count and the previous
timestamp exactly as the source loop does. -/
def segLoop (thr : Int) (minT maxT : Nat) (tok : String → Nat)
    (cur : List Message) (curTok : Nat) (prev : Option Int) (acc : SegAcc) :
    List Message → SegAcc
  | [] => closeBlock minT maxT cur curTok acc
  | m :: rest =>
    match prev with
    | some p =>
      if ts m - p ≤ thr ∧ curTok + tok m.content ≤ maxT then
        segLoop thr minT maxT tok (cur ++ [m]) (curTok + tok m.content) (some (ts m)) acc rest
      else
        segLoop thr minT maxT tok [m] (tok m.content) (some (ts m))
          (closeBlock minT maxT cur curTok acc) rest
    | none =>
      segLoop thr minT maxT tok [m] (tok m.content) (some (ts m))
        (closeBlock minT maxT cur curTok acc) rest

/-- Segmenter on one chronological message sequence. -/
def segmentMessages (thr : Int) (minT maxT : Nat) (tok : String → Nat)
    (msgs : List Message) : SegAcc :=
  segLoop thr minT maxT tok [] 0 none ⟨[], 0, 0⟩ msgs

/-- Segmenter over all chats (`tasks.py` lines 307-351), appending each chat's
kept blocks to its `raw_blocks` and accumulating the global discard counters. -/
def segmentChats (thr : Int) (minT maxT : Nat) (tok : String → Nat) :
    Nat → Nat → List Chat → List Chat × Nat × Nat
  | shorts, longs, [] => ([], shorts, longs)
  | shorts, longs, c :: rest =>
    let acc := segmentMessages thr minT maxT tok c.messages
    let (cs, s, l) := segmentChats thr minT maxT tok (shorts + acc.shorts) (longs + acc.longs) rest
    ({ c with raw_blocks := c.raw_blocks ++ acc.kept } :: cs, s, l)

/-- Turn Merger inner loop (`tasks.py` lines 384-431), including the
`continue`-on-ValidationError branches of the source, which drop the message
without updating the run state; the second component counts how many merged
turns failed construction and were skipped. -/
def mergeAux (d : String) (sender : Role) (t : Option Int) (c : String) :
    List Message → List Message × Nat
  | [] =>
    if c = "" then ([], 0)
    else
      match mkMessage sender c t with
      | some m => ([m], 0)
      | none => ([], 1)
  | m :: rest =>
    if m.role = sender then
      mergeAux d sender t (c ++ "\n" ++ d ++ " " ++ strTrim m.content) rest
    else
      match mkMessage sender c t with
      | some turn =>
        let res := mergeAux d m.role m.timestamp (d ++ " " ++ strTrim m.content) rest
        (turn :: res.1, res.2)
      | none =>
        let res := mergeAux d sender t c rest
        (res.1, res.2 + 1)

/-- Turn Merger on one raw block (`tasks.py` lines 381-433). -/
def mergeMsgs (d : String) : List Message → List Message × Nat
  | [] => ([], 0)
  | m :: rest => mergeAux d m.role m.timestamp (d ++ " " ++ strTrim m.content) rest

/-- Merger over one chat: every raw block is replaced by its merged turns. -/
def mergeChat (d : String) (c : Chat) : Chat :=
  { c with raw_blocks := c.raw_blocks.map (fun b => (mergeMsgs d b).1) }

/-- Outcome of the Block Validator on one merged block. -/
inductive VOutcome where
  | emptyInput
  | structShort
  | tokShort
  | tokLong
  | accepted (b : Block)
deriving DecidableEq, Repr

/-- Trimming pass of the Validator (`tasks.py` lines 467-473): drop leading
assistant turns, then drop trailing user turns. -/
def trimBlock (block : List Message) : List Message :=
  ((block.dropWhile (fun m => m.role == Role.assistant)).reverse.dropWhile
      (fun m => m.role == Role.user)).reverse

/-- Optional system-message insertion at index 0 (`tasks.py` lines 476-477). -/
def withSystem : Option Message → List Message → List Message
  | some s, b => s :: b
  | none, b => b

/-- Structural minimum turn count (`tasks.py` line 480). -/
def minMsgs : Option Message → Nat
  | some _ => 3
  | none => 2

/-- Block Validator on one merged block (`tasks.py` lines 463-498): empty
blocks are skipped, the block is trimmed, the system message prepended when
configured, and the structural and inclusive token-window checks applied;
`Block` construction itself never fails (see `Block`). -/
def validateBlock (sysMsg : Option Message) (minT maxT : Nat) (tok : String → Nat)
    (block : List Message) : VOutcome :=
  if block.isEmpty then .emptyInput
  else
    let b2 := withSystem sysMsg (trimBlock block)
    if b2.length < minMsgs sysMsg then .structShort
    else if tokSum tok b2 < minT then .tokShort
    else if tokSum tok b2 > maxT then .tokLong
    else .accepted ⟨b2⟩

/-- Counters of the validation pass.  `dbl` models the Python local
`discarded_blocks`: `none` means the variable has not been assigned yet. -/
structure VCounters where
  shorts : Nat
  longs : Nat
  dbl : Option Nat
deriving DecidableEq, Repr

/-- Counter update per validator outcome.  On acceptance the source executes
`discarded_blocks = discarded_short_blocks + discarded_long_blocks`
(`tasks.py` line 493) — the only assignment to that variable. -/
def vcUpdate (st : VCounters) : VOutcome → VCounters
  | .emptyInput => st
  | .structShort => { st with shorts := st.shorts + 1 }
  | .tokShort => { st with shorts := st.shorts + 1 }
  | .tokLong => { st with longs := st.longs + 1 }
  | .accepted _ => { st with dbl := some (st.shorts + st.longs) }

/-- Validator loop over the merged blocks of one chat (`tasks.py`
lines 463-506), collecting the accepted blocks in order. -/
def vBlocksLoop (sysMsg : Option Message) (minT maxT : Nat) (tok : String → Nat) :
    VCounters → List Block → List (List Message) → List Block × VCounters
  | st, acc, [] => (acc, st)
  | st, acc, b :: rest =>
    match validateBlock sysMsg minT maxT tok b with
    | .accepted bl =>
      vBlocksLoop sysMsg minT maxT tok (vcUpdate st (.accepted bl)) (acc ++ [bl]) rest
    | o => vBlocksLoop sysMsg minT maxT tok (vcUpdate st o) acc rest

/-- Validator on one chat: sets `valid_blocks` (`tasks.py` line 508). -/
def vChat (sysMsg : Option Message) (minT maxT : Nat) (tok : String → Nat)
    (st : VCounters) (c : Chat) : Chat × VCounters :=
  let (bs, st2) := vBlocksLoop sysMsg minT maxT tok st [] c.raw_blocks
  ({ c with valid_blocks := bs }, st2)

/-- Validator over all chats, threading the shared counters. -/
def vChats (sysMsg : Option Message) (minT maxT : Nat) (tok : String → Nat) :
    VCounters → List Chat → List Chat × VCounters
  | st, [] => ([], st)
  | st, c :: rest =>
    let (c2, st2) := vChat sysMsg minT maxT tok st c
    let (cs, st3) := vChats sysMsg minT maxT tok st2 rest
    (c2 :: cs, st3)

/-- Role-sanity pass over all chats (`tasks.py` lines 460-513), ending with
the summary log that reads `discarded_blocks` (line 512).  When no block ever
reached the acceptance path the variable was never assigned and Python raises
`NameError` there — modelled as the error result. -/
def validateChats (sysMsg : Option Message) (minT maxT : Nat) (tok : String → Nat)
    (chats : List Chat) : Except String (List Chat × VCounters) :=
  let (cs, st) := vChats sysMsg minT maxT tok ⟨0, 0, none⟩ chats
  match st.dbl with
  | none => .error "NameError: local variable discarded_blocks referenced before assignment"
  | some _ => .ok (cs, st)

/-- System-message construction (`tasks.py` lines 442-458):
`if cfg.system_prompt:` is falsy for `None` and for the empty string, and the
message is built with a null timestamp. -/
def buildSystemMessage (sp : Option String) : Option Message :=
  match sp with
  | none => none
  | some s => if s = "" then none else mkMessage .system s none

/-- Configuration options of the pipeline, named as in the source config. -/
structure Config where
  target_name : String
  date_limit : Option Int
  convo_block_thereshold_secs : Int
  min_tokens_per_block : Nat
  max_tokens_per_block : Nat
  message_delimiter : String
  system_prompt : Option String

/-- Chats surviving assembly and segmentation (`tasks.py` lines 203-355):
chats with zero kept raw blocks are dropped here — this is the only place a
chat is ever dropped after assembly. -/
def corpusAfterSegmentation (cfg : Config) (minT maxT : Nat) (tok : String → Nat)
    (raw : List RawChat) : List Chat :=
  let chats := raw.filterMap (buildChat cfg.target_name cfg.date_limit)
  let r := segmentChats cfg.convo_block_thereshold_secs minT maxT tok 0 0 chats
  r.1.filter (fun c => !c.raw_blocks.isEmpty)

/-- Pipeline core from assembly to validation for already-sanitised token
thresholds.  The final corpus is exactly the chat list the validation pass
returns: the source applies no further filtering before computing stats and
exporting `processed.json` and `train.jsonl` (`tasks.py` lines 515-702). -/
def runCore (cfg : Config) (minT maxT : Nat) (tok : String → Nat)
    (raw : List RawChat) : Except String (List Chat) :=
  let cs := corpusAfterSegmentation cfg minT maxT tok raw
  let d := strTrim cfg.message_delimiter
  let merged := cs.map (mergeChat d)
  match validateChats (buildSystemMessage cfg.system_prompt) minT maxT tok merged with
  | .ok (out, _) => .ok out
  | .error e => .error e

/-- Whole data-processing pipeline (`run_data_processing` steps 4 to 6b); the
Bool records whether the invalid-thresholds warning was logged. -/
def runPipeline (cfg : Config) (tok : String → Nat) (raw : List RawChat) :
    Except String (List Chat) × Bool :=
  let r := sanitizeThresholds cfg.min_tokens_per_block cfg.max_tokens_per_block
  (runCore cfg r.1 r.2.1 tok raw, r.2.2)

/-! ### Generic helper lemmas -/

lemma str_ne_empty_of_data {s : String} (h : s.data ≠ []) : s ≠ "" :=
  fun hc => h (congrArg String.data hc)

lemma strAppend_assoc (a b c : String) : a ++ b ++ c = a ++ (b ++ c) := by
  apply String.ext
  simp [String.data_append, List.append_assoc]

lemma delim_space_ne (d r : String) : d ++ " " ++ r ≠ "" := by
  apply str_ne_empty_of_data
  rw [String.data_append, String.data_append]
  intro hc
  rcases List.append_eq_nil.mp hc with ⟨h1, -⟩
  rcases List.append_eq_nil.mp h1 with ⟨-, h2⟩
  exact (by decide : (" " : String).data ≠ []) h2

lemma head?_dropWhile_not {α : Type _} (p : α → Bool) (l : List α) (a : α)
    (h : (l.dropWhile p).head? = some a) : p a = false := by
  induction l with
  | nil => simp [List.dropWhile] at h
  | cons x xs ih =>
    rw [List.dropWhile_cons] at h
    by_cases hx : p x
    · rw [if_pos hx] at h
      exact ih h
    · rw [if_neg hx] at h
      simp at h
      rw [← h]
      exact Bool.eq_false_iff.mpr hx

lemma tokSum_cons (tok : String → Nat) (m : Message) (rest : List Message) :
    tokSum tok (m :: rest) = tok m.content + tokSum tok rest := by
  simp [tokSum]

/-! ### C4: the Segmenter, re-stated from the spec's sentences -/

/-- Closing-block policy as the spec words it: a closed non-empty block is
kept iff its token count lies within the inclusive `[minT, maxT]` window,
otherwise it is classified as too short or too long. -/
def specClose (minT maxT : Nat) (acc : SegAcc) (cur : List Message) (curTok : Nat) :
    SegAcc :=
  match cur with
  | [] => acc
  | _ :: _ =>
    if minT ≤ curTok ∧ curTok ≤ maxT then { acc with kept := acc.kept ++ [cur] }
    else if curTok < minT then { acc with shorts := acc.shorts + 1 }
    else { acc with longs := acc.longs + 1 }

/-- Continuation test as the spec words it: a previous message exists in the
current block, the time gap to that previous message is within the threshold,
and appending the message keeps the running token count within the maximum. -/
def specContinues (thr : Int) (maxT : Nat) (tok : String → Nat)
    (cur : List Message) (curTok : Nat) (m : Message) : Bool :=
  match cur.getLast? with
  | none => false
  | some prevMsg => decide (ts m - ts prevMsg ≤ thr) && decide (curTok + tok m.content ≤ maxT)

/-- Single greedy left-to-right pass as the spec words it: continue the
current block when `specContinues` holds, otherwise close it under the
closing-block policy and start a new block containing only the current
message; after the final message close the in-progress block the same way. -/
def specSegLoop (thr : Int) (minT maxT : Nat) (tok : String → Nat)
    (cur : List Message) (curTok : Nat) (acc : SegAcc) : List Message → SegAcc
  | [] => specClose minT maxT acc cur curTok
  | m :: rest =>
    if specContinues thr maxT tok cur curTok m then
      specSegLoop thr minT maxT tok (cur ++ [m]) (curTok + tok m.content) acc rest
    else
      specSegLoop thr minT maxT tok [m] (tok m.content)
        (specClose minT maxT acc cur curTok) rest

/-- Segmenter described by the spec, starting from an empty current block. -/
def specSegment (thr : Int) (minT maxT : Nat) (tok : String → Nat)
    (msgs : List Message) : SegAcc :=
  specSegLoop thr minT maxT tok [] 0 ⟨[], 0, 0⟩ msgs

lemma closeBlock_nil (minT maxT : Nat) (curTok : Nat) (acc : SegAcc) :
    closeBlock minT maxT [] curTok acc = acc := rfl

lemma closeBlock_eq_specClose (minT maxT : Nat) (cur : List Message) (curTok : Nat)
    (acc : SegAcc) : closeBlock minT maxT cur curTok acc = specClose minT maxT acc cur curTok := by
  cases cur <;> simp [closeBlock, specClose]

lemma segLoop_nil (thr : Int) (minT maxT : Nat) (tok : String → Nat)
    (cur : List Message) (curTok : Nat) (prev : Option Int) (acc : SegAcc) :
    segLoop thr minT maxT tok cur curTok prev acc [] = closeBlock minT maxT cur curTok acc := rfl

lemma segLoop_cons_none (thr : Int) (minT maxT : Nat) (tok : String → Nat)
    (cur : List Message) (curTok : Nat) (acc : SegAcc) (m : Message) (rest : List Message) :
    segLoop thr minT maxT tok cur curTok none acc (m :: rest)
      = segLoop thr minT maxT tok [m] (tok m.content) (some (ts m))
          (closeBlock minT maxT cur curTok acc) rest := rfl

lemma segLoop_cons_some (thr : Int) (minT maxT : Nat) (tok : String → Nat)
    (cur : List Message) (curTok : Nat) (p : Int) (acc : SegAcc) (m : Message)
    (rest : List Message) :
    segLoop thr minT maxT tok cur curTok (some p) acc (m :: rest)
      = if ts m - p ≤ thr ∧ curTok + tok m.content ≤ maxT then
          segLoop thr minT maxT tok (cur ++ [m]) (curTok + tok m.content) (some (ts m)) acc rest
        else
          segLoop thr minT maxT tok [m] (tok m.content) (some (ts m))
            (closeBlock minT maxT cur curTok acc) rest := rfl

lemma specSegLoop_cons (thr : Int) (minT maxT : Nat) (tok : String → Nat)
    (cur : List Message) (curTok : Nat) (acc : SegAcc) (m : Message) (rest : List Message) :
    specSegLoop thr minT maxT tok cur curTok acc (m :: rest)
      = if specContinues thr maxT tok cur curTok m then
          specSegLoop thr minT maxT tok (cur ++ [m]) (curTok + tok m.content) acc rest
        else
          specSegLoop thr minT maxT tok [m] (tok m.content)
            (specClose minT maxT acc cur curTok) rest := rfl

lemma segLoop_eq_specSegLoop (thr : Int) (minT maxT : Nat) (tok : String → Nat) :
    ∀ (msgs cur : List Message) (curTok : Nat) (acc : SegAcc),
      segLoop thr minT maxT tok cur curTok ((cur.getLast?).map ts) acc msgs
        = specSegLoop thr minT maxT tok cur curTok acc msgs := by
  intro msgs
  induction msgs with
  | nil =>
    intro cur curTok acc
    rw [segLoop_nil, closeBlock_eq_specClose]
    rfl
  | cons m rest ih =>
    intro cur curTok acc
    cases hc : cur.getLast? with
    | none =>
      show segLoop thr minT maxT tok cur curTok none acc (m :: rest)
          = specSegLoop thr minT maxT tok cur curTok acc (m :: rest)
      rw [segLoop_cons_none, specSegLoop_cons]
      have hcont : specContinues thr maxT tok cur curTok m = false := by
        simp [specContinues, hc]
      rw [hcont]
      simp only [Bool.false_eq_true, if_false]
      have h3 := ih [m] (tok m.content) (specClose minT maxT acc cur curTok)
      rw [show (([m] : List Message).getLast?).map ts = some (ts m) from rfl] at h3
      rw [closeBlock_eq_specClose]
      exact h3
    | some prevMsg =>
      show segLoop thr minT maxT tok cur curTok (some (ts prevMsg)) acc (m :: rest)
          = specSegLoop thr minT maxT tok cur curTok acc (m :: rest)
      rw [segLoop_cons_some, specSegLoop_cons]
      by_cases hcond : ts m - ts prevMsg ≤ thr ∧ curTok + tok m.content ≤ maxT
      · have hcont : specContinues thr maxT tok cur curTok m = true := by
          simp [specContinues, hc, hcond.1, hcond.2]
        rw [if_pos hcond, hcont]
        simp only [if_true]
        have h3 := ih (cur ++ [m]) (curTok + tok m.content) acc
        rw [show ((cur ++ [m]).getLast?).map ts = some (ts m) by
          rw [List.getLast?_concat]
          rfl] at h3
        exact h3
      · have hcont : specContinues thr maxT tok cur curTok m = false := by
          simp only [specContinues, hc]
          by_cases h1 : ts m - ts prevMsg ≤ thr
          · have h2 : ¬ curTok + tok m.content ≤ maxT := fun h2 => hcond ⟨h1, h2⟩
            simp [h2]
          · simp [h1]
        rw [if_neg hcond, hcont]
        simp only [Bool.false_eq_true, if_false]
        have h3 := ih [m] (tok m.content) (specClose minT maxT acc cur curTok)
        rw [show (([m] : List Message).getLast?).map ts = some (ts m) from rfl] at h3
        rw [closeBlock_eq_specClose]
        exact h3

/-- C4: the Segmenter of the source is exactly the single left-to-right greedy
pass described by the spec: continue the current block iff a previous message
exists in it, the gap to it is within the threshold and the running token
count stays within the maximum; otherwise close the block under the inclusive
keep/short/long policy and start a new block with only the current message;
the final in-progress block is closed under the same policy. -/
theorem segmenter_matches_spec (thr : Int) (minT maxT : Nat) (tok : String → Nat)
    (msgs : List Message) :
    segmentMessages thr minT maxT tok msgs = specSegment thr minT maxT tok msgs := by
  have := segLoop_eq_specSegLoop thr minT maxT tok msgs [] 0 ⟨[], 0, 0⟩
  simpa [segmentMessages, specSegment] using this

/-! ### C5: Segmenter idempotence on kept blocks -/

/-- Gap condition relative to a previous timestamp `p`: every message is
within `thr` seconds of its predecessor. -/
def chainFromB (thr : Int) (p : Int) : List Message → Bool
  | [] => true
  | m :: rest => decide (ts m - p ≤ thr) && chainFromB thr (ts m) rest

/-- All consecutive time gaps inside the list are at most `thr`. -/
def gapsOkB (thr : Int) : List Message → Bool
  | [] => true
  | m :: rest => chainFromB thr (ts m) rest

lemma segLoop_joins (thr : Int) (minT maxT : Nat) (tok : String → Nat) :
    ∀ (rest cur : List Message) (curTok : Nat) (p : Int) (acc : SegAcc),
      chainFromB thr p rest = true →
      curTok + tokSum tok rest ≤ maxT →
      segLoop thr minT maxT tok cur curTok (some p) acc rest
        = closeBlock minT maxT (cur ++ rest) (curTok + tokSum tok rest) acc := by
  intro rest
  induction rest with
  | nil =>
    intro cur curTok p acc _ _
    rw [segLoop_nil]
    simp [tokSum]
  | cons m r ih =>
    intro cur curTok p acc hchain hbound
    rw [chainFromB, Bool.and_eq_true] at hchain
    have h1 : ts m - p ≤ thr := of_decide_eq_true hchain.1
    have hsum : tokSum tok (m :: r) = tok m.content + tokSum tok r := tokSum_cons tok m r
    have hb : curTok + tok m.content ≤ maxT := by
      rw [hsum] at hbound
      omega
    rw [segLoop_cons_some, if_pos ⟨h1, hb⟩,
      ih (cur ++ [m]) (curTok + tok m.content) (ts m) acc hchain.2
        (by rw [hsum] at hbound; omega)]
    rw [hsum]
    congr 1
    · simp
    · omega

/-- C5: the Segmenter is idempotent on its kept outputs: a non-empty block
whose consecutive gaps are all within the threshold and whose total token
count lies within `[minT, maxT]` is returned unchanged as the single kept
block, with no short or long discards. -/
theorem segmenter_idempotent (thr : Int) (minT maxT : Nat) (tok : String → Nat)
    (b : List Message) (hne : b ≠ []) (hg : gapsOkB thr b = true)
    (hmin : minT ≤ tokSum tok b) (hmax : tokSum tok b ≤ maxT) :
    segmentMessages thr minT maxT tok b = ⟨[b], 0, 0⟩ := by
  cases b with
  | nil => exact absurd rfl hne
  | cons m rest =>
    rw [show segmentMessages thr minT maxT tok (m :: rest)
        = segLoop thr minT maxT tok [] 0 none ⟨[], 0, 0⟩ (m :: rest) from rfl,
      segLoop_cons_none, closeBlock_nil]
    rw [segLoop_joins thr minT maxT tok rest [m] (tok m.content) (ts m) (⟨[], 0, 0⟩ : SegAcc) hg
      (by rw [← tokSum_cons]; exact hmax)]
    have hsum : tok m.content + tokSum tok rest = tokSum tok (m :: rest) :=
      (tokSum_cons tok m rest).symm
    rw [List.singleton_append, hsum]
    simp only [closeBlock, List.isEmpty_cons, Bool.false_eq_true, if_false]
    rw [if_pos (And.intro hmin hmax)]
    simp

/-- Concrete kept block used as witness input for C5. -/
def wSegBlock : List Message :=
  [⟨.user, "hi", some 0⟩, ⟨.assistant, "yo", some 10⟩]

/-- Witness for C5 at a concrete kept block. -/
theorem segmenter_idempotent_witness :
    gapsOkB 60 wSegBlock = true ∧
    segmentMessages 60 1 1000 String.length wSegBlock = ⟨[wSegBlock], 0, 0⟩ :=
  ⟨by decide,
    segmenter_idempotent 60 1 1000 String.length wSegBlock (by decide) (by decide)
      (by decide) (by decide)⟩

/-! ### Turn Merger lemmas and C10 -/

lemma append_ne_left (a b : String) (h : a ≠ "") : a ++ b ≠ "" := by
  apply str_ne_empty_of_data
  rw [String.data_append]
  intro hc
  rcases List.append_eq_nil.mp hc with ⟨h1, -⟩
  exact h (String.ext h1)

lemma mkMessage_content {r : Role} {c : String} {t : Option Int} {m : Message}
    (h : mkMessage r c t = some m) : m = ⟨r, c, t⟩ := by
  unfold mkMessage at h
  by_cases hc : c = ""
  · rw [if_pos hc] at h
    cases h
  · rw [if_neg hc] at h
    exact (Option.some_inj.mp h).symm

lemma mkMessage_of_ne {r : Role} {c : String} {t : Option Int} (hc : c ≠ "") :
    mkMessage r c t = some ⟨r, c, t⟩ := by
  unfold mkMessage
  rw [if_neg hc]

lemma mergeAux_nil (d : String) (s : Role) (t : Option Int) (c : String) :
    mergeAux d s t c []
      = if c = "" then (([] : List Message), 0)
        else
          match mkMessage s c t with
          | some m => ([m], 0)
          | none => ([], 1) := rfl

lemma mergeAux_cons_same (d : String) (s : Role) (t : Option Int) (c : String)
    (m : Message) (rest : List Message) (h : m.role = s) :
    mergeAux d s t c (m :: rest)
      = mergeAux d s t (c ++ "\n" ++ d ++ " " ++ strTrim m.content) rest := by
  rw [mergeAux, if_pos h]

lemma mergeAux_cons_ne (d : String) (s : Role) (t : Option Int) (c : String)
    (m : Message) (rest : List Message) (h : ¬ m.role = s) (hc : c ≠ "") :
    mergeAux d s t c (m :: rest)
      = (Message.mk s c t :: (mergeAux d m.role m.timestamp (d ++ " " ++ strTrim m.content) rest).1,
         (mergeAux d m.role m.timestamp (d ++ " " ++ strTrim m.content) rest).2) := by
  rw [mergeAux, if_neg h, mkMessage_of_ne hc]

lemma delim_grow (d r x : String) :
    (d ++ " " ++ r) ++ "\n" ++ d ++ " " ++ x
      = d ++ " " ++ (r ++ "\n" ++ d ++ " " ++ x) := by
  apply String.ext
  simp [String.data_append, List.append_assoc]

lemma mergeAux_keeps (d : String) :
    ∀ (l : List Message) (s : Role) (t : Option Int) (c r : String),
      c = d ++ " " ++ r →
      (∀ m2 ∈ (mergeAux d s t c l).1, ∃ r2, m2.content = d ++ " " ++ r2) ∧
      (mergeAux d s t c l).2 = 0 := by
  intro l
  induction l with
  | nil =>
    intro s t c r hc
    have hne : c ≠ "" := hc ▸ delim_space_ne d r
    rw [mergeAux_nil, if_neg hne, mkMessage_of_ne hne]
    refine ⟨?_, rfl⟩
    intro m2 hm2
    have h2 : m2 = ⟨s, c, t⟩ := by simpa using hm2
    exact ⟨r, by rw [h2, hc]⟩
  | cons m rest ih =>
    intro s t c r hc
    have hne : c ≠ "" := hc ▸ delim_space_ne d r
    by_cases hrole : m.role = s
    · rw [mergeAux_cons_same d s t c m rest hrole]
      exact ih s t (c ++ "\n" ++ d ++ " " ++ strTrim m.content)
        (r ++ "\n" ++ d ++ " " ++ strTrim m.content) (by rw [hc, delim_grow])
    · rw [mergeAux_cons_ne d s t c m rest hrole hne]
      have hrec := ih m.role m.timestamp (d ++ " " ++ strTrim m.content)
        (strTrim m.content) rfl
      refine ⟨?_, hrec.2⟩
      intro m2 hm2
      rcases List.mem_cons.mp hm2 with h2 | h2
      · exact ⟨r, by rw [h2, hc]⟩
      · exact hrec.1 m2 h2

/-- C10: every merged turn the Turn Merger produces from a non-empty raw block
has non-empty content beginning with the delimiter followed by a space, so the
turn-construction failure branch of the merger is never taken. -/
theorem merged_turns_delimited (d : String) (rb : List Message) (hne : rb ≠ []) :
    (∀ t2 ∈ (mergeMsgs d rb).1,
        t2.content ≠ "" ∧ ∃ r, t2.content = d ++ " " ++ r) ∧
    (mergeMsgs d rb).2 = 0 := by
  cases rb with
  | nil => exact absurd rfl hne
  | cons m rest =>
    have h := mergeAux_keeps d rest m.role m.timestamp
      (d ++ " " ++ strTrim m.content) (strTrim m.content) rfl
    refine ⟨?_, h.2⟩
    intro t2 ht2
    rcases h.1 t2 ht2 with ⟨r2, hr2⟩
    exact ⟨hr2 ▸ delim_space_ne d r2, ⟨r2, hr2⟩⟩

/-- Concrete raw block used as witness input for C10. -/
def wMergeBlock : List Message :=
  [⟨.user, "hi", some 0⟩, ⟨.user, "again", some 5⟩, ⟨.assistant, "yo", some 9⟩]

/-- Witness for C10 at a concrete raw block and delimiter. -/
theorem merged_turns_delimited_witness :
    (∀ t2 ∈ (mergeMsgs ">>>" wMergeBlock).1,
        t2.content ≠ "" ∧ ∃ r, t2.content = ">>>" ++ " " ++ r) ∧
    (mergeMsgs ">>>" wMergeBlock).2 = 0 :=
  merged_turns_delimited ">>>" wMergeBlock (by decide)

/-! ### C9: Normalizer content reconstruction -/

/-- C9: the content of every message the Normalizer accepts is the
concatenation of the record's text fragments in order, followed by the sticker
content, stripped of leading and trailing whitespace and with internal
newlines replaced by spaces. -/
theorem normalizer_content (targetName : String) (dateLimit : Option Int)
    (rec : RawMessage) (m : Message)
    (h : normalizeMsg targetName dateLimit rec = some m) :
    m.content = nlToSpace (strTrim (String.join rec.text_entities ++ rec.sticker_emoji)) := by
  simp only [normalizeMsg] at h
  repeat' split at h
  all_goals try cases h
  all_goals rw [mkMessage_content h]

/-- Concrete raw record used as witness input for C9. -/
def wRecC9 : RawMessage := ⟨"alice", ["a\nb", " c "], "", some 5⟩

/-- Concrete normalised message for the C9 witness. -/
def wMsgC9 : Message := (normalizeMsg "me" none wRecC9).getD ⟨.user, "", none⟩

/-- Witness for C9 at a concrete raw record. -/
theorem normalizer_content_witness :
    wMsgC9.content
      = nlToSpace (strTrim (String.join wRecC9.text_entities ++ wRecC9.sticker_emoji)) :=
  normalizer_content "me" none wRecC9 wMsgC9 (by decide)

/-! ### C8: threshold sanitisation -/

/-- C8: with inverted thresholds `min_tokens ≥ max_tokens` the pipeline logs a
warning and runs its core — Segmenter and Validator alike — with the default
pair `(100, 3000)`; with `min_tokens < max_tokens` the supplied values are
used unchanged and no warning is logged. -/
theorem threshold_sanitization (cfg : Config) (tok : String → Nat) (raw : List RawChat) :
    (cfg.min_tokens_per_block ≥ cfg.max_tokens_per_block →
      sanitizeThresholds cfg.min_tokens_per_block cfg.max_tokens_per_block = (100, 3000, true) ∧
      runPipeline cfg tok raw = (runCore cfg 100 3000 tok raw, true)) ∧
    (cfg.min_tokens_per_block < cfg.max_tokens_per_block →
      runPipeline cfg tok raw
        = (runCore cfg cfg.min_tokens_per_block cfg.max_tokens_per_block tok raw, false)) := by
  constructor
  · intro h
    have hs : sanitizeThresholds cfg.min_tokens_per_block cfg.max_tokens_per_block
        = (100, 3000, true) := by
      unfold sanitizeThresholds
      rw [if_pos h]
    refine ⟨hs, ?_⟩
    unfold runPipeline
    rw [hs]
  · intro h
    have hs : sanitizeThresholds cfg.min_tokens_per_block cfg.max_tokens_per_block
        = (cfg.min_tokens_per_block, cfg.max_tokens_per_block, false) := by
      unfold sanitizeThresholds
      rw [if_neg (not_le.mpr h)]
    unfold runPipeline
    rw [hs]

/-- Configuration with inverted thresholds for the C8 witness. -/
def wCfgC8 : Config :=
  { target_name := "me", date_limit := none, convo_block_thereshold_secs := 60,
    min_tokens_per_block := 500, max_tokens_per_block := 100,
    message_delimiter := ">>>", system_prompt := none }

/-- Witness for C8 at `min_tokens = 500 ≥ max_tokens = 100`. -/
theorem threshold_sanitization_witness :
    sanitizeThresholds wCfgC8.min_tokens_per_block wCfgC8.max_tokens_per_block
      = (100, 3000, true) ∧
    runPipeline wCfgC8 String.length [] = (runCore wCfgC8 100 3000 String.length [], true) :=
  (threshold_sanitization wCfgC8 String.length []).1 (by decide)

/-! ### C7: the validation pass can raise -/

/-- Configuration for the C7 failing input. -/
def wCfgC7 : Config :=
  { target_name := "me", date_limit := none, convo_block_thereshold_secs := 60,
    min_tokens_per_block := 1, max_tokens_per_block := 1000,
    message_delimiter := ">>>", system_prompt := none }

/-- Raw corpus for the C7 failing input: one chat with a single user message,
whose only block is segmented and kept, merged into one user turn, and then
rejected by the Validator as structurally short — so no block ever reaches the
acceptance path and `discarded_blocks` is never assigned. -/
def wRawC7 : List RawChat :=
  [⟨"bob", "personal_chat", [⟨"bob", ["hello"], "", some 0⟩]⟩]

/-- C7 evaluation at the failing input: the validation pass aborts with the
unbound-local error instead of completing, contradicting the claim that no
validator outcome aborts the batch. -/
theorem validator_raises_nameerror :
    (runPipeline wCfgC7 String.length wRawC7).1
      = .error "NameError: local variable discarded_blocks referenced before assignment" := by
  rfl

/-! ### Block Validator lemmas, C2 and C3 -/

lemma validateBlock_unfold (sysMsg : Option Message) (minT maxT : Nat)
    (tok : String → Nat) (block : List Message) :
    validateBlock sysMsg minT maxT tok block
      = if block.isEmpty then VOutcome.emptyInput
        else if (withSystem sysMsg (trimBlock block)).length < minMsgs sysMsg then .structShort
        else if tokSum tok (withSystem sysMsg (trimBlock block)) < minT then .tokShort
        else if tokSum tok (withSystem sysMsg (trimBlock block)) > maxT then .tokLong
        else .accepted ⟨withSystem sysMsg (trimBlock block)⟩ := rfl

lemma validateBlock_accepted {sysMsg : Option Message} {minT maxT : Nat}
    {tok : String → Nat} {block : List Message} {B : Block}
    (h : validateBlock sysMsg minT maxT tok block = .accepted B) :
    B.messages = withSystem sysMsg (trimBlock block) ∧
    minMsgs sysMsg ≤ B.messages.length ∧
    minT ≤ tokSum tok B.messages ∧ tokSum tok B.messages ≤ maxT := by
  rw [validateBlock_unfold] at h
  by_cases h0 : block.isEmpty
  · rw [if_pos h0] at h
    cases h
  · rw [if_neg h0] at h
    by_cases h1 : (withSystem sysMsg (trimBlock block)).length < minMsgs sysMsg
    · rw [if_pos h1] at h
      cases h
    · rw [if_neg h1] at h
      by_cases h2 : tokSum tok (withSystem sysMsg (trimBlock block)) < minT
      · rw [if_pos h2] at h
        cases h
      · rw [if_neg h2] at h
        by_cases h3 : tokSum tok (withSystem sysMsg (trimBlock block)) > maxT
        · rw [if_pos h3] at h
          cases h
        · rw [if_neg h3] at h
          have hB : B.messages = withSystem sysMsg (trimBlock block) := by
            cases h
            rfl
          refine ⟨hB, ?_, ?_, ?_⟩ <;> rw [hB] <;> omega

/-- C2: a Block is accepted only with its total token sum — over all turns,
the prepended system turn included — inside the inclusive `[minT, maxT]`
window; a trimmed block passing the structural check whose sum is below the
minimum is rejected as `tokShort` and one whose sum exceeds the maximum as
`tokLong`, and the two rejection kinds bump separate counters. -/
theorem accepted_block_token_window (sysMsg : Option Message) (minT maxT : Nat)
    (tok : String → Nat) (block : List Message) (B : Block) (st : VCounters) :
    (validateBlock sysMsg minT maxT tok block = .accepted B →
      minT ≤ tokSum tok B.messages ∧ tokSum tok B.messages ≤ maxT) ∧
    (block.isEmpty = false →
      ¬ (withSystem sysMsg (trimBlock block)).length < minMsgs sysMsg →
      tokSum tok (withSystem sysMsg (trimBlock block)) < minT →
      validateBlock sysMsg minT maxT tok block = .tokShort ∧
      vcUpdate st .tokShort = { st with shorts := st.shorts + 1 }) ∧
    (minT ≤ maxT →
      block.isEmpty = false →
      ¬ (withSystem sysMsg (trimBlock block)).length < minMsgs sysMsg →
      tokSum tok (withSystem sysMsg (trimBlock block)) > maxT →
      validateBlock sysMsg minT maxT tok block = .tokLong ∧
      vcUpdate st .tokLong = { st with longs := st.longs + 1 }) := by
  refine ⟨fun h => ⟨(validateBlock_accepted h).2.2.1, (validateBlock_accepted h).2.2.2⟩, ?_, ?_⟩
  · intro h0 h1 h2
    refine ⟨?_, rfl⟩
    rw [validateBlock_unfold, if_neg (by rw [h0]; exact Bool.false_ne_true),
      if_neg h1, if_pos h2]
  · intro hmm h0 h1 h2
    refine ⟨?_, rfl⟩
    have h3 : ¬ tokSum tok (withSystem sysMsg (trimBlock block)) < minT := by omega
    rw [validateBlock_unfold, if_neg (by rw [h0]; exact Bool.false_ne_true),
      if_neg h1, if_neg h3, if_pos h2]

/-- Concrete merged block accepted by the Validator, for the C2/C3 witnesses. -/
def wVBlock : List Message :=
  [⟨.user, ">>> hi there", some 0⟩, ⟨.assistant, ">>> yo", some 10⟩]

/-- Concrete merged block rejected as token-short, for the C2 witness. -/
def wVShort : List Message :=
  [⟨.user, ">>> a", some 0⟩, ⟨.assistant, ">>> b", some 1⟩]

/-- Witness for C2: one accepted block inside the window, one token-short
rejection and one token-long rejection at concrete inputs. -/
theorem accepted_block_token_window_witness :
    (1 ≤ tokSum String.length (Block.mk wVBlock).messages ∧
      tokSum String.length (Block.mk wVBlock).messages ≤ 1000) ∧
    (validateBlock none 100 1000 String.length wVShort = .tokShort ∧
      vcUpdate ⟨0, 0, none⟩ .tokShort = ⟨1, 0, none⟩) ∧
    (validateBlock none 1 5 String.length wVShort = .tokLong ∧
      vcUpdate ⟨0, 0, none⟩ .tokLong = ⟨0, 1, none⟩) :=
  ⟨(accepted_block_token_window none 1 1000 String.length wVBlock (Block.mk wVBlock)
      ⟨0, 0, none⟩).1 (by decide),
   (accepted_block_token_window none 100 1000 String.length wVShort (Block.mk wVShort)
      ⟨0, 0, none⟩).2.1 (by decide) (by decide) (by decide),
   (accepted_block_token_window none 1 5 String.length wVShort (Block.mk wVShort)
      ⟨0, 0, none⟩).2.2 (by decide) (by decide) (by decide) (by decide)⟩

/-- C3: with a configured system prompt every accepted Block starts with the
system turn and has at least 3 turns; without one it has at least 2 turns. -/
theorem accepted_block_structure (s : Message) (minT maxT : Nat) (tok : String → Nat)
    (block block2 : List Message) (B B2 : Block) (hs : s.role = .system) :
    (validateBlock (some s) minT maxT tok block = .accepted B →
      (B.messages.head?).map Message.role = some .system ∧ 3 ≤ B.messages.length) ∧
    (validateBlock none minT maxT tok block2 = .accepted B2 → 2 ≤ B2.messages.length) := by
  constructor
  · intro h
    obtain ⟨hm, hlen, -, -⟩ := validateBlock_accepted h
    constructor
    · rw [hm]
      simp [withSystem, hs]
    · simpa [minMsgs] using hlen
  · intro h
    obtain ⟨-, hlen, -, -⟩ := validateBlock_accepted h
    simpa [minMsgs] using hlen

/-- The synthetic system message used in the C1/C3 witnesses. -/
def wSysMsg : Message := ⟨.system, "sys", none⟩

/-- Witness for C3 at concrete accepted blocks with and without a system
prompt. -/
theorem accepted_block_structure_witness :
    ((Block.mk (wSysMsg :: wVBlock)).messages.head?.map Message.role = some .system ∧
      3 ≤ (Block.mk (wSysMsg :: wVBlock)).messages.length) ∧
    2 ≤ (Block.mk wVBlock).messages.length :=
  ⟨(accepted_block_structure wSysMsg 1 1000 String.length wVBlock wVBlock
      (Block.mk (wSysMsg :: wVBlock)) (Block.mk wVBlock) (by decide)).1 (by decide),
   (accepted_block_structure wSysMsg 1 1000 String.length wVBlock wVBlock
      (Block.mk (wSysMsg :: wVBlock)) (Block.mk wVBlock) (by decide)).2 (by decide)⟩

/-! ### Trimming and role-alternation lemmas -/

lemma dropA_decomp (l : List Message) :
    ∃ u, l = u ++ l.dropWhile (fun m => m.role == Role.assistant) := by
  obtain ⟨u, hu⟩ := List.dropWhile_suffix (l := l) (fun m => m.role == Role.assistant)
  exact ⟨u, hu.symm⟩

lemma trim_decomp (l : List Message) :
    ∃ w, l.dropWhile (fun m => m.role == Role.assistant) = trimBlock l ++ w := by
  obtain ⟨v, hv⟩ := List.dropWhile_suffix
    (l := (l.dropWhile (fun m => m.role == Role.assistant)).reverse)
    (fun m => m.role == Role.user)
  refine ⟨v.reverse, ?_⟩
  have h2 := congrArg List.reverse hv
  rw [List.reverse_append, List.reverse_reverse] at h2
  exact h2.symm

lemma chain_trimBlock {l : List Message}
    (h : List.Chain' (fun a b => a.role ≠ b.role) l) :
    List.Chain' (fun a b => a.role ≠ b.role) (trimBlock l) := by
  have h1 : List.Chain' (fun a b => a.role ≠ b.role)
      (l.dropWhile (fun m => m.role == Role.assistant)) :=
    h.suffix (List.dropWhile_suffix _)
  obtain ⟨w, hw⟩ := trim_decomp l
  rw [hw] at h1
  exact h1.left_of_append

lemma mem_trimBlock {l : List Message} {m : Message} (h : m ∈ trimBlock l) : m ∈ l := by
  obtain ⟨w, hw⟩ := trim_decomp l
  obtain ⟨u, hu⟩ := dropA_decomp l
  rw [hu, hw]
  exact List.mem_append_right u (List.mem_append_left w h)

lemma head_trimBlock {l : List Message} {m : Message}
    (h : (trimBlock l).head? = some m) : (m.role == Role.assistant) = false := by
  obtain ⟨w, hw⟩ := trim_decomp l
  have hne : trimBlock l ≠ [] := by
    intro hc
    rw [hc] at h
    cases h
  have h2 : (l.dropWhile (fun mm => mm.role == Role.assistant)).head? = some m := by
    rw [hw, List.head?_append_of_ne_nil _ hne]
    exact h
  exact head?_dropWhile_not (fun mm => mm.role == Role.assistant) l m h2

lemma last_trimBlock {l : List Message} {m : Message}
    (h : (trimBlock l).getLast? = some m) : (m.role == Role.user) = false := by
  rw [List.getLast?_eq_head?_reverse] at h
  rw [show (trimBlock l).reverse
      = (l.dropWhile (fun mm => mm.role == Role.assistant)).reverse.dropWhile
          (fun mm => mm.role == Role.user) from List.reverse_reverse _] at h
  exact head?_dropWhile_not (fun mm => mm.role == Role.user)
    (l.dropWhile (fun mm => mm.role == Role.assistant)).reverse m h

lemma role_of_not_assistant_not_system {m : Message}
    (ha : (m.role == Role.assistant) = false) (hs : m.role ≠ .system) :
    m.role = .user := by
  cases hr : m.role
  · exact absurd hr hs
  · rfl
  · rw [hr] at ha
    simp at ha

lemma role_of_not_user_not_system {m : Message}
    (hu : (m.role == Role.user) = false) (hs : m.role ≠ .system) :
    m.role = .assistant := by
  cases hr : m.role
  · exact absurd hr hs
  · rw [hr] at hu
    simp at hu
  · rfl

lemma mergeAux_first (d : String) :
    ∀ (l : List Message) (s : Role) (t : Option Int) (c : String), c ≠ "" →
      ∃ m2 l2, (mergeAux d s t c l).1 = m2 :: l2 ∧ m2.role = s := by
  intro l
  induction l with
  | nil =>
    intro s t c hc
    rw [mergeAux_nil, if_neg hc, mkMessage_of_ne hc]
    exact ⟨⟨s, c, t⟩, [], rfl, rfl⟩
  | cons m rest ih =>
    intro s t c hc
    by_cases hrole : m.role = s
    · rw [mergeAux_cons_same d s t c m rest hrole]
      exact ih s t _ (append_ne_left _ _ (append_ne_left _ _ (append_ne_left _ _
        (append_ne_left _ _ hc))))
    · rw [mergeAux_cons_ne d s t c m rest hrole hc]
      exact ⟨⟨s, c, t⟩, _, rfl, rfl⟩

lemma mergeAux_chain (d : String) (P : Role → Prop) :
    ∀ (l : List Message) (s : Role) (t : Option Int) (c : String), c ≠ "" → P s →
      (∀ m ∈ l, P m.role) →
      List.Chain' (fun a b => a.role ≠ b.role) (mergeAux d s t c l).1 ∧
      (∀ m2 ∈ (mergeAux d s t c l).1, P m2.role) := by
  intro l
  induction l with
  | nil =>
    intro s t c hc hP _
    rw [mergeAux_nil, if_neg hc, mkMessage_of_ne hc]
    refine ⟨List.chain'_singleton _, ?_⟩
    intro m2 hm2
    have h2 : m2 = ⟨s, c, t⟩ := by simpa using hm2
    rw [h2]
    exact hP
  | cons m rest ih =>
    intro s t c hc hP hl
    by_cases hrole : m.role = s
    · rw [mergeAux_cons_same d s t c m rest hrole]
      exact ih s t _ (append_ne_left _ _ (append_ne_left _ _ (append_ne_left _ _
        (append_ne_left _ _ hc)))) hP (fun mm hmm => hl mm (List.mem_cons_of_mem m hmm))
    · rw [mergeAux_cons_ne d s t c m rest hrole hc]
      have hc2 : (d ++ " " ++ strTrim m.content) ≠ "" := delim_space_ne d _
      have hrec := ih m.role m.timestamp (d ++ " " ++ strTrim m.content) hc2
        (hl m (List.mem_cons_self m rest))
        (fun mm hmm => hl mm (List.mem_cons_of_mem m hmm))
      constructor
      · rw [List.chain'_cons']
        refine ⟨?_, hrec.1⟩
        intro y hy
        obtain ⟨m2, l2, hm2, hrole2⟩ := mergeAux_first d rest m.role m.timestamp
          (d ++ " " ++ strTrim m.content) hc2
        rw [hm2] at hy
        have hym : y = m2 := (by simpa using hy : m2 = y).symm
        rw [hym, hrole2]
        exact fun he => hrole he.symm
      · intro m2 hm2
        rcases List.mem_cons.mp hm2 with h2 | h2
        · rw [h2]
          exact hP
        · exact hrec.2 m2 h2

lemma mergeMsgs_props (d : String) (P : Role → Prop) (b : List Message)
    (hb : ∀ m ∈ b, P m.role) :
    List.Chain' (fun a b2 => a.role ≠ b2.role) (mergeMsgs d b).1 ∧
    (∀ m2 ∈ (mergeMsgs d b).1, P m2.role) := by
  cases b with
  | nil =>
    exact ⟨List.chain'_nil, by intro m2 hm2; cases hm2⟩
  | cons m rest =>
    exact mergeAux_chain d P rest m.role m.timestamp (d ++ " " ++ strTrim m.content)
      (delim_space_ne d _) (hb m (List.mem_cons_self m rest))
      (fun mm hmm => hb mm (List.mem_cons_of_mem m hmm))

/-! ### Assembler and Segmenter membership lemmas -/

lemma normalizeMsg_role {targetName : String} {dateLimit : Option Int}
    {rec : RawMessage} {m : Message}
    (h : normalizeMsg targetName dateLimit rec = some m) : m.role ≠ .system := by
  simp only [normalizeMsg] at h
  repeat' split at h
  all_goals try cases h
  all_goals rw [mkMessage_content h]
  all_goals simp

lemma mem_insertByTs {m x : Message} :
    ∀ {l : List Message}, x ∈ insertByTs m l → x = m ∨ x ∈ l := by
  intro l
  induction l with
  | nil =>
    intro h
    rw [show insertByTs m [] = [m] from rfl] at h
    exact Or.inl (by simpa using h)
  | cons y ys ih =>
    intro h
    by_cases hcond : y.timestamp.getD 0 < m.timestamp.getD 0
    · rw [show insertByTs m (y :: ys) = y :: insertByTs m ys from by
        rw [insertByTs, if_pos hcond]] at h
      rcases List.mem_cons.mp h with h2 | h2
      · exact Or.inr (by rw [h2]; exact List.mem_cons_self y ys)
      · rcases ih h2 with h3 | h3
        · exact Or.inl h3
        · exact Or.inr (List.mem_cons_of_mem y h3)
    · rw [show insertByTs m (y :: ys) = m :: y :: ys from by
        rw [insertByTs, if_neg hcond]] at h
      rcases List.mem_cons.mp h with h2 | h2
      · exact Or.inl h2
      · exact Or.inr h2

lemma mem_sortByTs {x : Message} : ∀ {l : List Message}, x ∈ sortByTs l → x ∈ l := by
  intro l
  induction l with
  | nil =>
    intro h
    exact h
  | cons m rest ih =>
    intro h
    rw [show sortByTs (m :: rest) = insertByTs m (sortByTs rest) from rfl] at h
    rcases mem_insertByTs h with h2 | h2
    · rw [h2]
      exact List.mem_cons_self m rest
    · exact List.mem_cons_of_mem m (ih h2)

lemma buildChat_some {targetName : String} {dateLimit : Option Int} {rc : RawChat}
    {c : Chat} (h : buildChat targetName dateLimit rc = some c) :
    c.raw_blocks = [] ∧ (∀ mm ∈ c.messages, mm.role ≠ .system) := by
  simp only [buildChat] at h
  split at h
  · cases h
  · split at h
    · cases h
    · split at h
      · cases h
      · have hc : c = Chat.mk rc.name rc.type
            (sortByTs (rc.messages.filterMap (normalizeMsg targetName dateLimit))) [] [] := by
          cases h
          rfl
        rw [hc]
        refine ⟨rfl, ?_⟩
        intro mm hmm
        obtain ⟨rm, hrm, hn⟩ := List.mem_filterMap.mp (mem_sortByTs hmm)
        exact normalizeMsg_role hn

lemma closeBlock_kept_mem {minT maxT : Nat} {cur : List Message} {curTok : Nat}
    {acc : SegAcc} {b : List Message}
    (h : b ∈ (closeBlock minT maxT cur curTok acc).kept) :
    b ∈ acc.kept ∨ b = cur := by
  unfold closeBlock at h
  by_cases h0 : cur.isEmpty
  · rw [if_pos h0] at h
    exact Or.inl h
  · rw [if_neg h0] at h
    by_cases h1 : minT ≤ curTok ∧ curTok ≤ maxT
    · rw [if_pos h1] at h
      rcases List.mem_append.mp h with h2 | h2
      · exact Or.inl h2
      · exact Or.inr (by simpa using h2)
    · rw [if_neg h1] at h
      by_cases h2 : curTok < minT
      · rw [if_pos h2] at h
        exact Or.inl h
      · rw [if_neg h2] at h
        exact Or.inl h

lemma segLoop_kept_prop (P : Message → Prop) (thr : Int) (minT maxT : Nat)
    (tok : String → Nat) :
    ∀ (msgs cur : List Message) (curTok : Nat) (prev : Option Int) (acc : SegAcc),
      (∀ mm ∈ cur, P mm) → (∀ mm ∈ msgs, P mm) →
      (∀ b ∈ acc.kept, ∀ mm ∈ b, P mm) →
      ∀ b ∈ (segLoop thr minT maxT tok cur curTok prev acc msgs).kept, ∀ mm ∈ b, P mm := by
  intro msgs
  induction msgs with
  | nil =>
    intro cur curTok prev acc hcur _ hacc b hb mm hmm
    rw [segLoop_nil] at hb
    rcases closeBlock_kept_mem hb with h | h
    · exact hacc b h mm hmm
    · exact hcur mm (h ▸ hmm)
  | cons m rest ih =>
    intro cur curTok prev acc hcur hmsgs hacc b hb mm hmm
    have hm : P m := hmsgs m (List.mem_cons_self m rest)
    have hrest : ∀ x ∈ rest, P x := fun x hx => hmsgs x (List.mem_cons_of_mem m hx)
    have hclose : ∀ b2 ∈ (closeBlock minT maxT cur curTok acc).kept, ∀ x ∈ b2, P x := by
      intro b2 hb2 x hx
      rcases closeBlock_kept_mem hb2 with h | h
      · exact hacc b2 h x hx
      · exact hcur x (h ▸ hx)
    cases prev with
    | none =>
      rw [segLoop_cons_none] at hb
      exact ih [m] (tok m.content) (some (ts m)) _
        (fun x hx => by rw [List.mem_singleton.mp hx]; exact hm) hrest hclose b hb mm hmm
    | some p =>
      rw [segLoop_cons_some] at hb
      by_cases hcond : ts m - p ≤ thr ∧ curTok + tok m.content ≤ maxT
      · rw [if_pos hcond] at hb
        refine ih (cur ++ [m]) (curTok + tok m.content) (some (ts m)) acc ?_ hrest hacc b hb mm hmm
        intro x hx
        rcases List.mem_append.mp hx with h | h
        · exact hcur x h
        · rw [List.mem_singleton.mp h]
          exact hm
      · rw [if_neg hcond] at hb
        exact ih [m] (tok m.content) (some (ts m)) _
          (fun x hx => by rw [List.mem_singleton.mp hx]; exact hm) hrest hclose b hb mm hmm

lemma segmentChats_cons (thr : Int) (minT maxT : Nat) (tok : String → Nat)
    (shorts longs : Nat) (c : Chat) (rest : List Chat) :
    segmentChats thr minT maxT tok shorts longs (c :: rest)
      = ({ c with raw_blocks := c.raw_blocks
            ++ (segmentMessages thr minT maxT tok c.messages).kept }
          :: (segmentChats thr minT maxT tok
                (shorts + (segmentMessages thr minT maxT tok c.messages).shorts)
                (longs + (segmentMessages thr minT maxT tok c.messages).longs) rest).1,
         (segmentChats thr minT maxT tok
            (shorts + (segmentMessages thr minT maxT tok c.messages).shorts)
            (longs + (segmentMessages thr minT maxT tok c.messages).longs) rest).2) := rfl

lemma segmentChats_mem (thr : Int) (minT maxT : Nat) (tok : String → Nat) :
    ∀ (chats : List Chat) (shorts longs : Nat) (c2 : Chat),
      c2 ∈ (segmentChats thr minT maxT tok shorts longs chats).1 →
      ∃ c ∈ chats, c2 = { c with raw_blocks := c.raw_blocks
          ++ (segmentMessages thr minT maxT tok c.messages).kept } := by
  intro chats
  induction chats with
  | nil =>
    intro s l c2 h
    exact absurd h (List.not_mem_nil c2)
  | cons c rest ih =>
    intro s l c2 h
    rw [segmentChats_cons] at h
    rcases List.mem_cons.mp h with h2 | h2
    · exact ⟨c, List.mem_cons_self c rest, h2⟩
    · obtain ⟨c3, hc3, heq⟩ := ih _ _ c2 h2
      exact ⟨c3, List.mem_cons_of_mem c hc3, heq⟩

lemma corpus_raw_blocks_prop (cfg : Config) (minT maxT : Nat) (tok : String → Nat)
    (raw : List RawChat) (c : Chat)
    (hc : c ∈ corpusAfterSegmentation cfg minT maxT tok raw) :
    (∀ rb ∈ c.raw_blocks, ∀ mm ∈ rb, mm.role ≠ .system) ∧ c.raw_blocks ≠ [] := by
  simp only [corpusAfterSegmentation] at hc
  have h1 := List.mem_filter.mp hc
  obtain ⟨c0, hc0, hceq⟩ := segmentChats_mem cfg.convo_block_thereshold_secs minT maxT tok
    (raw.filterMap (buildChat cfg.target_name cfg.date_limit)) 0 0 c h1.1
  obtain ⟨rc, hrc, hbuild⟩ := List.mem_filterMap.mp hc0
  obtain ⟨hraw0, hroles⟩ := buildChat_some hbuild
  constructor
  · intro rb hrb mm hmm
    have hrb2 : rb ∈ c0.raw_blocks
        ++ (segmentMessages cfg.convo_block_thereshold_secs minT maxT tok c0.messages).kept := by
      rw [hceq] at hrb
      exact hrb
    rw [hraw0] at hrb2
    simp only [List.nil_append] at hrb2
    exact segLoop_kept_prop (fun m => m.role ≠ .system) cfg.convo_block_thereshold_secs
      minT maxT tok c0.messages [] 0 none ⟨[], 0, 0⟩
      (fun x hx => absurd hx (List.not_mem_nil x)) hroles
      (fun b2 hb2 => absurd hb2 (List.not_mem_nil b2)) rb hrb2 mm hmm
  · intro hcontra
    have h2 := h1.2
    rw [hcontra] at h2
    simp at h2

/-! ### Shape of accepted blocks -/

lemma trim_pair {b : List Message} (hlen : 2 ≤ (trimBlock b).length)
    (hrole : ∀ mm ∈ b, mm.role ≠ .system) :
    ∃ th tt, trimBlock b = th :: tt ∧ th.role = .user := by
  cases hb : trimBlock b with
  | nil =>
    rw [hb] at hlen
    simp at hlen
  | cons th tt =>
    refine ⟨th, tt, rfl, ?_⟩
    have hh : (trimBlock b).head? = some th := by
      rw [hb]
      rfl
    have h1 := head_trimBlock hh
    have h2 : th ∈ trimBlock b := by
      rw [hb]
      exact List.mem_cons_self th tt
    exact role_of_not_assistant_not_system h1 (hrole th (mem_trimBlock h2))

lemma trim_last {b : List Message} (hlen : 2 ≤ (trimBlock b).length)
    (hrole : ∀ mm ∈ b, mm.role ≠ .system) :
    ((trimBlock b).getLast?).map Message.role = some Role.assistant := by
  cases hl : (trimBlock b).getLast? with
  | none =>
    have h0 := List.getLast?_eq_none_iff.mp hl
    rw [h0] at hlen
    simp at hlen
  | some lm =>
    have h1 := last_trimBlock hl
    have h2 : lm ∈ trimBlock b := List.mem_of_getLast?_eq_some hl
    have h3 := role_of_not_user_not_system h1 (hrole lm (mem_trimBlock h2))
    simp [h3]

lemma validated_shape {sys : Option Message} {minT maxT : Nat} {tok : String → Nat}
    {b : List Message} {B : Block}
    (hsys : ∀ s, sys = some s → s.role = .system)
    (hchain : List.Chain' (fun a b2 => a.role ≠ b2.role) b)
    (hrole : ∀ mm ∈ b, mm.role ≠ .system)
    (hacc : validateBlock sys minT maxT tok b = .accepted B) :
    ((B.messages.dropWhile (fun m => m.role == Role.system)).head?).map Message.role
        = some Role.user ∧
    (B.messages.getLast?).map Message.role = some Role.assistant ∧
    List.Chain' (fun a b2 => a.role ≠ b2.role) B.messages ∧
    (B.messages.head?).map Message.role ≠ some Role.assistant ∧
    (B.messages.getLast?).map Message.role ≠ some Role.user := by
  obtain ⟨hm, hlen, -, -⟩ := validateBlock_accepted hacc
  have hch2 := chain_trimBlock hchain
  cases hsv : sys with
  | none =>
    rw [hsv] at hm hlen
    have hm2 : B.messages = trimBlock b := hm
    have hlen2 : 2 ≤ (trimBlock b).length := by
      rw [← hm2]
      simpa [minMsgs] using hlen
    obtain ⟨th, tt, hbt, hthu⟩ := trim_pair hlen2 hrole
    have hlast := trim_last hlen2 hrole
    refine ⟨?_, ?_, ?_, ?_, ?_⟩
    · rw [hm2, hbt]
      simp [List.dropWhile_cons, hthu]
    · rw [hm2]
      exact hlast
    · rw [hm2]
      exact hch2
    · rw [hm2, hbt]
      simp [hthu]
    · rw [hm2, hlast]
      simp
  | some s =>
    have hs := hsys s hsv
    rw [hsv] at hm hlen
    have hm2 : B.messages = s :: trimBlock b := hm
    have hlen2 : 2 ≤ (trimBlock b).length := by
      have h3 : 3 ≤ (s :: trimBlock b).length := by
        rw [← hm2]
        simpa [minMsgs] using hlen
      simpa using h3
    obtain ⟨th, tt, hbt, hthu⟩ := trim_pair hlen2 hrole
    have hlast := trim_last hlen2 hrole
    refine ⟨?_, ?_, ?_, ?_, ?_⟩
    · rw [hm2, hbt]
      simp [List.dropWhile_cons, hs, hthu]
    · rw [hm2, hbt, List.getLast?_cons_cons, ← hbt]
      exact hlast
    · rw [hm2, List.chain'_cons']
      refine ⟨?_, hch2⟩
      intro y hy
      rw [hbt] at hy
      have hyth : y = th := (by simpa using hy : th = y).symm
      rw [hyth, hs, hthu]
      simp
    · rw [hm2]
      simp [hs]
    · rw [hm2, hbt, List.getLast?_cons_cons, ← hbt, hlast]
      simp

/-! ### Validation pass lemmas -/

lemma vBlocksLoop_step (sys : Option Message) (minT maxT : Nat) (tok : String → Nat)
    (st : VCounters) (acc : List Block) (b : List Message) (rest : List (List Message)) :
    vBlocksLoop sys minT maxT tok st acc (b :: rest)
      = vBlocksLoop sys minT maxT tok (vcUpdate st (validateBlock sys minT maxT tok b))
          (match validateBlock sys minT maxT tok b with
           | .accepted bl => acc ++ [bl]
           | _ => acc) rest := by
  cases hv : validateBlock sys minT maxT tok b <;> simp [vBlocksLoop, hv]

lemma vBlocksLoop_mem (sys : Option Message) (minT maxT : Nat) (tok : String → Nat) :
    ∀ (bs : List (List Message)) (st : VCounters) (acc : List Block) (B : Block),
      B ∈ (vBlocksLoop sys minT maxT tok st acc bs).1 →
      B ∈ acc ∨ ∃ b ∈ bs, validateBlock sys minT maxT tok b = .accepted B := by
  intro bs
  induction bs with
  | nil =>
    intro st acc B h
    exact Or.inl h
  | cons b rest ih =>
    intro st acc B h
    rw [vBlocksLoop_step] at h
    cases hv : validateBlock sys minT maxT tok b with
    | accepted bl =>
      rw [hv] at h
      rcases ih (vcUpdate st (.accepted bl)) (acc ++ [bl]) B h with h2 | ⟨b2, hb2, hacc2⟩
      · rcases List.mem_append.mp h2 with h3 | h3
        · exact Or.inl h3
        · refine Or.inr ⟨b, List.mem_cons_self b rest, ?_⟩
          rw [hv, show B = bl from by simpa using h3]
      · exact Or.inr ⟨b2, List.mem_cons_of_mem b hb2, hacc2⟩
    | emptyInput =>
      rw [hv] at h
      rcases ih (vcUpdate st .emptyInput) acc B h with h2 | ⟨b2, hb2, hacc2⟩
      · exact Or.inl h2
      · exact Or.inr ⟨b2, List.mem_cons_of_mem b hb2, hacc2⟩
    | structShort =>
      rw [hv] at h
      rcases ih (vcUpdate st .structShort) acc B h with h2 | ⟨b2, hb2, hacc2⟩
      · exact Or.inl h2
      · exact Or.inr ⟨b2, List.mem_cons_of_mem b hb2, hacc2⟩
    | tokShort =>
      rw [hv] at h
      rcases ih (vcUpdate st .tokShort) acc B h with h2 | ⟨b2, hb2, hacc2⟩
      · exact Or.inl h2
      · exact Or.inr ⟨b2, List.mem_cons_of_mem b hb2, hacc2⟩
    | tokLong =>
      rw [hv] at h
      rcases ih (vcUpdate st .tokLong) acc B h with h2 | ⟨b2, hb2, hacc2⟩
      · exact Or.inl h2
      · exact Or.inr ⟨b2, List.mem_cons_of_mem b hb2, hacc2⟩

lemma vChat_eq (sys : Option Message) (minT maxT : Nat) (tok : String → Nat)
    (st : VCounters) (c : Chat) :
    vChat sys minT maxT tok st c
      = ({ c with valid_blocks := (vBlocksLoop sys minT maxT tok st [] c.raw_blocks).1 },
         (vBlocksLoop sys minT maxT tok st [] c.raw_blocks).2) := rfl

lemma vChats_cons (sys : Option Message) (minT maxT : Nat) (tok : String → Nat)
    (st : VCounters) (c : Chat) (rest : List Chat) :
    vChats sys minT maxT tok st (c :: rest)
      = ((vChat sys minT maxT tok st c).1
          :: (vChats sys minT maxT tok (vChat sys minT maxT tok st c).2 rest).1,
         (vChats sys minT maxT tok (vChat sys minT maxT tok st c).2 rest).2) := rfl

lemma vChats_mem (sys : Option Message) (minT maxT : Nat) (tok : String → Nat) :
    ∀ (chats : List Chat) (st : VCounters) (c2 : Chat),
      c2 ∈ (vChats sys minT maxT tok st chats).1 →
      ∃ c ∈ chats, c2.raw_blocks = c.raw_blocks ∧
        ∀ B ∈ c2.valid_blocks, ∃ b ∈ c.raw_blocks,
          validateBlock sys minT maxT tok b = .accepted B := by
  intro chats
  induction chats with
  | nil =>
    intro st c2 h
    exact absurd h (List.not_mem_nil c2)
  | cons c rest ih =>
    intro st c2 h
    rw [vChats_cons] at h
    rcases List.mem_cons.mp h with h2 | h2
    · refine ⟨c, List.mem_cons_self c rest, ?_, ?_⟩
      · rw [h2, vChat_eq]
      · intro B hB
        rw [h2, vChat_eq] at hB
        rcases vBlocksLoop_mem sys minT maxT tok c.raw_blocks st [] B hB with h3 | h3
        · exact absurd h3 (List.not_mem_nil B)
        · exact h3
    · obtain ⟨c3, hc3, hraw, hval⟩ := ih (vChat sys minT maxT tok st c).2 c2 h2
      exact ⟨c3, List.mem_cons_of_mem c hc3, hraw, hval⟩

lemma vChats_length (sys : Option Message) (minT maxT : Nat) (tok : String → Nat) :
    ∀ (chats : List Chat) (st : VCounters),
      (vChats sys minT maxT tok st chats).1.length = chats.length := by
  intro chats
  induction chats with
  | nil =>
    intro st
    rfl
  | cons c rest ih =>
    intro st
    rw [vChats_cons]
    simp [ih]

lemma validateChats_unfold (sys : Option Message) (minT maxT : Nat) (tok : String → Nat)
    (chats : List Chat) :
    validateChats sys minT maxT tok chats
      = match (vChats sys minT maxT tok ⟨0, 0, none⟩ chats).2.dbl with
        | none =>
          .error "NameError: local variable discarded_blocks referenced before assignment"
        | some _ =>
          .ok ((vChats sys minT maxT tok ⟨0, 0, none⟩ chats).1,
            (vChats sys minT maxT tok ⟨0, 0, none⟩ chats).2) := rfl

lemma validateChats_ok {sys : Option Message} {minT maxT : Nat} {tok : String → Nat}
    {chats : List Chat} {out : List Chat} {st : VCounters}
    (h : validateChats sys minT maxT tok chats = .ok (out, st)) :
    out = (vChats sys minT maxT tok ⟨0, 0, none⟩ chats).1 := by
  rw [validateChats_unfold] at h
  cases hd : (vChats sys minT maxT tok ⟨0, 0, none⟩ chats).2.dbl with
  | none =>
    rw [hd] at h
    cases h
  | some n =>
    rw [hd] at h
    have h3 : (Except.ok (((vChats sys minT maxT tok ⟨0, 0, none⟩ chats).1,
        (vChats sys minT maxT tok ⟨0, 0, none⟩ chats).2))
          : Except String (List Chat × VCounters)) = .ok (out, st) := h
    injection h3 with h4
    exact (congrArg Prod.fst h4).symm

lemma runCore_unfold (cfg : Config) (minT maxT : Nat) (tok : String → Nat)
    (raw : List RawChat) :
    runCore cfg minT maxT tok raw
      = match validateChats (buildSystemMessage cfg.system_prompt) minT maxT tok
          ((corpusAfterSegmentation cfg minT maxT tok raw).map
            (mergeChat (strTrim cfg.message_delimiter))) with
        | .ok (out, _) => .ok out
        | .error e => .error e := rfl

lemma runCore_ok {cfg : Config} {minT maxT : Nat} {tok : String → Nat}
    {raw : List RawChat} {out : List Chat}
    (h : runCore cfg minT maxT tok raw = .ok out) :
    out = (vChats (buildSystemMessage cfg.system_prompt) minT maxT tok ⟨0, 0, none⟩
      ((corpusAfterSegmentation cfg minT maxT tok raw).map
        (mergeChat (strTrim cfg.message_delimiter)))).1 := by
  rw [runCore_unfold] at h
  cases hv : validateChats (buildSystemMessage cfg.system_prompt) minT maxT tok
      ((corpusAfterSegmentation cfg minT maxT tok raw).map
        (mergeChat (strTrim cfg.message_delimiter))) with
  | ok p =>
    rw [hv] at h
    obtain ⟨o, st⟩ := p
    have h2 : (Except.ok o : Except String (List Chat)) = .ok out := h
    injection h2 with h3
    rw [← h3]
    exact validateChats_ok hv
  | error e =>
    rw [hv] at h
    have h2 : (Except.error e : Except String (List Chat)) = .ok out := h
    cases h2

lemma buildSystemMessage_role {sp : Option String} {s : Message}
    (h : buildSystemMessage sp = some s) : s.role = .system := by
  cases hsp : sp with
  | none =>
    rw [hsp] at h
    cases h
  | some str =>
    rw [hsp] at h
    rw [show buildSystemMessage (some str)
        = if str = "" then none else mkMessage .system str none from rfl] at h
    by_cases he : str = ""
    · rw [if_pos he] at h
      cases h
    · rw [if_neg he, mkMessage_of_ne he] at h
      cases h
      rfl

/-! ### C1: role shape of every accepted block of the pipeline -/

/-- C1: for every accepted Block of the pipeline, the first non-system turn is
a user turn, the last turn is an assistant turn, no two consecutive turns
share a role, and no accepted Block starts with an assistant turn or ends
with a user turn. -/
theorem accepted_block_role_shape (cfg : Config) (tok : String → Nat)
    (raw : List RawChat) (out : List Chat) (c : Chat) (B : Block)
    (h : (runPipeline cfg tok raw).1 = .ok out) (hc : c ∈ out)
    (hB : B ∈ c.valid_blocks) :
    ((B.messages.dropWhile (fun m => m.role == Role.system)).head?).map Message.role
        = some Role.user ∧
    (B.messages.getLast?).map Message.role = some Role.assistant ∧
    List.Chain' (fun a b2 => a.role ≠ b2.role) B.messages ∧
    (B.messages.head?).map Message.role ≠ some Role.assistant ∧
    (B.messages.getLast?).map Message.role ≠ some Role.user := by
  have h2 : runCore cfg
      (sanitizeThresholds cfg.min_tokens_per_block cfg.max_tokens_per_block).1
      (sanitizeThresholds cfg.min_tokens_per_block cfg.max_tokens_per_block).2.1
      tok raw = .ok out := h
  have ho := runCore_ok h2
  rw [ho] at hc
  obtain ⟨cm, hcm, -, hval⟩ := vChats_mem _ _ _ _ _ _ _ hc
  obtain ⟨b, hb, hacc⟩ := hval B hB
  obtain ⟨c0, hc0, hc0eq⟩ := List.mem_map.mp hcm
  have h3 : cm.raw_blocks = c0.raw_blocks.map
      (fun b2 => (mergeMsgs (strTrim cfg.message_delimiter) b2).1) := by
    rw [← hc0eq]
    rfl
  rw [h3] at hb
  obtain ⟨rb, hrb, hrbeq⟩ := List.mem_map.mp hb
  have hprop := (corpus_raw_blocks_prop cfg _ _ tok raw c0 hc0).1 rb hrb
  have hmer := mergeMsgs_props (strTrim cfg.message_delimiter) (fun r => r ≠ .system) rb
    (fun mm hmm => hprop mm hmm)
  rw [hrbeq] at hmer
  exact validated_shape (fun s hsv => buildSystemMessage_role hsv) hmer.1
    (fun mm hmm => hmer.2 mm hmm) hacc

/-- Configuration for the C1 witness run, with a system prompt. -/
def wCfgC1 : Config :=
  { target_name := "me", date_limit := none, convo_block_thereshold_secs := 60,
    min_tokens_per_block := 1, max_tokens_per_block := 1000,
    message_delimiter := ">>>", system_prompt := some "sys" }

/-- Raw corpus for the C1 witness run. -/
def wRawC1 : List RawChat :=
  [⟨"alice", "personal_chat",
    [⟨"alice", ["hi there"], "", some 0⟩, ⟨"me", ["yo"], "", some 10⟩]⟩]

/-- Final corpus of the C1 witness run. -/
def wOutC1 : List Chat := ((runPipeline wCfgC1 String.length wRawC1).1).toOption.getD []

/-- First chat of the C1 witness corpus. -/
def wChatC1 : Chat := (wOutC1.head?).getD ⟨"", "", [], [], []⟩

/-- First accepted block of the C1 witness corpus. -/
def wBlockC1 : Block := (wChatC1.valid_blocks.head?).getD ⟨[]⟩

/-- Witness for C1 at a concrete pipeline run. -/
theorem accepted_block_role_shape_witness :
    ((wBlockC1.messages.dropWhile (fun m => m.role == Role.system)).head?).map Message.role
        = some Role.user ∧
    (wBlockC1.messages.getLast?).map Message.role = some Role.assistant ∧
    List.Chain' (fun a b2 => a.role ≠ b2.role) wBlockC1.messages ∧
    (wBlockC1.messages.head?).map Message.role ≠ some Role.assistant ∧
    (wBlockC1.messages.getLast?).map Message.role ≠ some Role.user :=
  accepted_block_role_shape wCfgC1 String.length wRawC1 wOutC1 wChatC1 wBlockC1
    (by rfl) (by decide) (by decide)

/-! ### C6: retention after validation -/

/-- C6 (amended): validation drops no chat — the final corpus has exactly one
chat per chat surviving segmentation, each with a non-empty `raw_blocks`
sequence, even when all of a chat's blocks were rejected (its `valid_blocks`
is then empty but the chat is retained). -/
theorem final_corpus_retention (cfg : Config) (tok : String → Nat)
    (raw : List RawChat) (out : List Chat)
    (h : (runPipeline cfg tok raw).1 = .ok out) :
    (∀ c ∈ out, c.raw_blocks ≠ []) ∧
    out.length = (corpusAfterSegmentation cfg
      (sanitizeThresholds cfg.min_tokens_per_block cfg.max_tokens_per_block).1
      (sanitizeThresholds cfg.min_tokens_per_block cfg.max_tokens_per_block).2.1
      tok raw).length := by
  have h2 : runCore cfg
      (sanitizeThresholds cfg.min_tokens_per_block cfg.max_tokens_per_block).1
      (sanitizeThresholds cfg.min_tokens_per_block cfg.max_tokens_per_block).2.1
      tok raw = .ok out := h
  have ho := runCore_ok h2
  constructor
  · intro c hc
    rw [ho] at hc
    obtain ⟨cm, hcm, hraw, -⟩ := vChats_mem _ _ _ _ _ _ _ hc
    obtain ⟨c0, hc0, hc0eq⟩ := List.mem_map.mp hcm
    have h3 : cm.raw_blocks = c0.raw_blocks.map
        (fun b2 => (mergeMsgs (strTrim cfg.message_delimiter) b2).1) := by
      rw [← hc0eq]
      rfl
    have h4 := (corpus_raw_blocks_prop cfg _ _ tok raw c0 hc0).2
    rw [hraw, h3]
    intro hcontra
    apply h4
    have hlen := congrArg List.length hcontra
    rw [List.length_map] at hlen
    exact List.length_eq_zero.mp hlen
  · rw [ho, vChats_length, List.length_map]

/-- Configuration for the C6 counterexample run. -/
def wCfgC6 : Config :=
  { target_name := "me", date_limit := none, convo_block_thereshold_secs := 60,
    min_tokens_per_block := 1, max_tokens_per_block := 1000,
    message_delimiter := ">>>", system_prompt := none }

/-- Raw corpus for the C6 counterexample run: the first chat produces one
accepted block; the second chat's only block is merged to a single user turn
and rejected by the Validator, leaving that chat with zero accepted blocks. -/
def wRawC6 : List RawChat :=
  [⟨"alice", "personal_chat",
    [⟨"alice", ["hi"], "", some 0⟩, ⟨"me", ["yo"], "", some 10⟩]⟩,
   ⟨"bob", "personal_chat", [⟨"bob", ["hello"], "", some 0⟩]⟩]

/-- C6 counterexample: the pipeline completes and its final corpus — the chat
list handed to stats and export — contains a chat whose `valid_blocks` is
empty, so a chat whose blocks are all rejected is not dropped. -/
theorem empty_chat_retained_counterexample :
    ((runPipeline wCfgC6 String.length wRawC6).1).isOk = true ∧
    (((runPipeline wCfgC6 String.length wRawC6).1).toOption.getD []).any
      (fun c => c.valid_blocks.isEmpty) = true :=
  ⟨rfl, rfl⟩

/-- Witness for the amended C6 at the concrete counterexample corpus. -/
theorem final_corpus_retention_witness :
    (∀ c ∈ ((runPipeline wCfgC6 String.length wRawC6).1).toOption.getD [],
      c.raw_blocks ≠ []) ∧
    (((runPipeline wCfgC6 String.length wRawC6).1).toOption.getD []).length
      = (corpusAfterSegmentation wCfgC6
          (sanitizeThresholds wCfgC6.min_tokens_per_block wCfgC6.max_tokens_per_block).1
          (sanitizeThresholds wCfgC6.min_tokens_per_block wCfgC6.max_tokens_per_block).2.1
          String.length wRawC6).length :=
  final_corpus_retention wCfgC6 String.length wRawC6
    (((runPipeline wCfgC6 String.length wRawC6).1).toOption.getD []) (by rfl)

end Resonare
